import Mathlib

/-!
Shallow embedding of the client-side validation / reconciliation / pagination
subsystem of jobpulse (src/frontend/js/app.js), together with theorems about
the claims of the specification.

Modelling conventions:
* A fetched application record is a structure of `Option String` fields; `none`
  models a JS `undefined`/`null` field, `some ""` an empty string.
* A status-history entry's `date` is modelled as a `Nat`: the numeric timestamp
  that `new Date(entry.date)` yields in the source.  For the fixed-width
  `YYYY-MM-DD` dates used throughout, this ordering agrees with the calendar
  order of the strings.
* The `status_history` field of a raw JSON record can be absent, `null`, a
  non-array value, or an array; `HistField` keeps these cases apart because the
  source guards on `app.status_history && Array.isArray(...) && length > 0`.
* JavaScript `Array.prototype.sort` is stable; the source sorts a copy of the
  history descending by date.  `sortHistDesc` is a stable insertion sort that
  places an earlier-positioned entry before any entry with an equal or smaller
  date, which is exactly the stable descending order of the source comparator
  `(a, b) => new Date(b.date) - new Date(a.date)`.
* The fire-and-forget auto-fix request (`autoFixApplication`, a `PUT` with body
  `{status}`) is modelled as data: reconciliation returns the list of
  `(id, status)` update dispatches it issued.  The source never inspects the
  outcome of the request, so no outcome is part of the state.
-/

namespace JobPulse

/-- One entry of a record's status history: `{status, date}` (the `source`
field is never read by the subsystem under study). `date` is the numeric
timestamp `new Date(entry.date)` evaluates to. -/
structure HistEntry where
  status : String
  date : Nat
deriving DecidableEq, Repr

/-- The raw `status_history` field of a fetched JSON record. -/
inductive HistField where
  | absent
  | jnull
  | notArray
  | entries (l : List HistEntry)
deriving DecidableEq, Repr

/-- A fetched application record, with the fields read by validation and
reconciliation. -/
structure App where
  id : String
  company : Option String
  role : Option String
  status : Option String
  platform : Option String
  applied_date : Option String
  status_history : HistField
deriving DecidableEq, Repr

/-- The source guard `app.status_history && Array.isArray(app.status_history)
&& app.status_history.length > 0`: yields the entry list exactly when the
field is an array with at least one element. -/
def histEntries : HistField → Option (List HistEntry)
  | .entries (e :: l) => some (e :: l)
  | _ => none

/-- Insert an entry into a date-descending list, in front of the first entry
whose date is ≤ its own (stable: an entry inserted later in the fold, i.e.
earlier in the original list, precedes entries of equal date). -/
def insertByDateDesc (e : HistEntry) : List HistEntry → List HistEntry
  | [] => [e]
  | x :: xs => if x.date ≤ e.date then e :: x :: xs else x :: insertByDateDesc e xs

/-- `[...h].sort((a, b) => new Date(b.date) - new Date(a.date))` of the
source: a stable sort of the history, descending by date. -/
def sortHistDesc : List HistEntry → List HistEntry
  | [] => []
  | e :: l => insertByDateDesc e (sortHistDesc l)

/-- The latest-by-date entry of a history, as the specification's words have
it: the entry with the greatest date, the earliest-positioned one on ties.
Used only to state spec-side properties; the source computes the head of the
sorted copy instead, and `head_sortHistDesc` identifies the two. -/
def latestByDate : List HistEntry → Option HistEntry
  | [] => none
  | a :: l =>
    match latestByDate l with
    | none => some a
    | some m => some (if m.date ≤ a.date then a else m)

/-- The reconciliation step the source runs on every fetched record before
validation (`refreshData`, lines 966–978): if the history is a non-empty
array, sort a copy descending by date; if the record's status differs from the
head's status, dispatch one auto-fix update `{status: latest}` for the
record's id and overwrite the local status.  Returns the possibly-rewritten
record and the list of dispatched `(id, status)` updates. -/
def reconcileApp (a : App) : App × List (String × String) :=
  match histEntries a.status_history with
  | none => (a, [])
  | some l =>
    match (sortHistDesc l).head? with
    | none => (a, [])
    | some e =>
      if a.status = some e.status then (a, [])
      else ({ a with status := some e.status }, [(a.id, e.status)])

/-- The whitespace characters stripped by JavaScript `String.prototype.trim`
(the ones relevant to these records). -/
def jsWhitespace (c : Char) : Bool :=
  c == ' ' || c == '\t' || c == '\n' || c == '\r'

/-- `field.trim()` of the source: strip leading and trailing whitespace. -/
def trimmed (s : String) : String :=
  ⟨((s.data.dropWhile jsWhitespace).reverse.dropWhile jsWhitespace).reverse⟩

/-- `!field || !field.trim()` of the source, negated: the field is present and
non-empty after trim. -/
def nonEmptyTrim : Option String → Bool
  | none => false
  | some s => !(trimmed s == "")

/-- `!app.applied_date` of the source, negated: present and not the empty
string. -/
def presentString : Option String → Bool
  | none => false
  | some s => !(s == "")

/-- The regex `^\d{4}-\d{2}-\d{2}$` of the source. -/
def matchesDateFormat (s : String) : Bool :=
  match s.data with
  | [y1, y2, y3, y4, d1, m1, m2, d2, a1, a2] =>
    y1.isDigit && y2.isDigit && y3.isDigit && y4.isDigit &&
    d1 == '-' && m1.isDigit && m2.isDigit &&
    d2 == '-' && a1.isDigit && a2.isDigit
  | _ => false

/-- The closed list `validStatuses` of the source. -/
def validStatuses : List String :=
  ["Applied", "Viewed", "In Review", "Phone Screen",
   "Interview Scheduled", "Interviewed", "Technical Round",
   "HR Round", "Assessment", "Offer Received", "Accepted",
   "Rejected", "Withdrawn", "Ghosted"]

/-- The history-consistency check of `validateApplication`: skipped unless the
history is a non-empty array, otherwise the record's status must equal the
status of the head of the date-descending sorted copy. -/
def historyOk (a : App) : Bool :=
  match histEntries a.status_history with
  | none => true
  | some l =>
    match (sortHistDesc l).head? with
    | none => true
    | some e => a.status = some e.status

/-- `validateApplication` of the source (lines 1184–1252): required fields
non-empty after trim, applied_date present and in `YYYY-MM-DD` format, status
in the closed list, and history-consistent. The source returns at the first
failing check; the conjunction is evaluated in the same order. -/
def validateApplication (a : App) : Bool :=
  nonEmptyTrim a.company &&
  nonEmptyTrim a.role &&
  nonEmptyTrim a.status &&
  nonEmptyTrim a.platform &&
  presentString a.applied_date &&
  matchesDateFormat (a.applied_date.getD "") &&
  validStatuses.contains (a.status.getD "") &&
  historyOk a

/-- The non-history part of `validateApplication`: required-field, date-format
and status-enum checks only. -/
def baseChecks (a : App) : Bool :=
  nonEmptyTrim a.company &&
  nonEmptyTrim a.role &&
  nonEmptyTrim a.status &&
  nonEmptyTrim a.platform &&
  presentString a.applied_date &&
  matchesDateFormat (a.applied_date.getD "") &&
  validStatuses.contains (a.status.getD "")

/-- The validation predicate as the specification words it: company, role,
status and platform non-empty after trim; applied date present and matching
the format; status among the fourteen allowed values; and, whenever the
status history is a non-empty array, the latest-by-date entry's status equal
to the record's status. -/
def validateSpec (a : App) : Prop :=
  (∃ c, a.company = some c ∧ trimmed c ≠ "") ∧
  (∃ r, a.role = some r ∧ trimmed r ≠ "") ∧
  (∃ s, a.status = some s ∧ trimmed s ≠ "" ∧ s ∈ validStatuses) ∧
  (∃ p, a.platform = some p ∧ trimmed p ≠ "") ∧
  (∃ d, a.applied_date = some d ∧ matchesDateFormat d = true) ∧
  (∀ l e, a.status_history = .entries l → latestByDate l = some e →
    a.status = some e.status)

/-- The module-level store state of app.js: `allApplications`,
`invalidApplications`, `currentOffset`, `hasMoreData`, `totalApplications`. -/
structure StoreState where
  allApplications : List App
  invalidApplications : List App
  currentOffset : Nat
  hasMoreData : Bool
  totalApplications : Nat
deriving DecidableEq, Repr

/-- The decoded response body of `GET /applications`: `newApps =
data.applications || data` (already resolved to the record list here),
`has_more` distinguished between absent (`none`) and present, and `total`
absent or `null` modelled as `none`. -/
structure PageResponse where
  applications : List App
  has_more : Option Bool
  total : Option Nat
deriving DecidableEq, Repr

/-- Outcome of the fetch + decode of one page: either a decoded body or a
thrown network / decode error. -/
inductive FetchOutcome where
  | ok (data : PageResponse)
  | fail
deriving DecidableEq, Repr

/-- The records of a page after the per-record reconciliation pass. -/
def reconciledApps (l : List App) : List App :=
  l.map (fun a => (reconcileApp a).1)

/-- The records of a page that pass validation after reconciliation
(`validNewApps` of the source). -/
def validOf (l : List App) : List App :=
  (reconciledApps l).filter (fun a => validateApplication a)

/-- The records of a page that fail validation after reconciliation (the ones
pushed onto `invalidApplications`). -/
def invalidOf (l : List App) : List App :=
  (reconciledApps l).filter (fun a => !validateApplication a)

/-- All auto-fix update dispatches issued while processing a page. -/
def fixesOf (l : List App) : List (String × String) :=
  (l.map (fun a => (reconcileApp a).2)).flatten

/-- `refreshData(resetPagination)` of the source (lines 920–1018), as a state
transformer.  On reset the offset, `hasMoreData` and the record list are
cleared *before* the fetch; a thrown fetch / decode error is caught and leaves
the rest of the state untouched.  On success: `hasMoreData` comes from a
strict-`undefined` test of `has_more`, `totalApplications` from
`data.total || newApps.length`, the invalid list is cleared only on reset and
then extended with the page's invalid records, the valid records replace or
extend `allApplications`, and the offset becomes the new length of
`allApplications`.  Also returns the auto-fix dispatches issued. -/
def refreshData (st : StoreState) (reset : Bool) (outcome : FetchOutcome) :
    StoreState × List (String × String) :=
  let st0 := if reset then
    { st with currentOffset := 0, hasMoreData := true, allApplications := [] }
  else st
  match outcome with
  | .fail => (st0, [])
  | .ok d =>
    let newApps := d.applications
    let hasMore := d.has_more.getD false
    let total :=
      match d.total with
      | some (n + 1) => n + 1
      | _ => newApps.length
    let inv0 := if reset then [] else st0.invalidApplications
    let allApps := if reset then validOf newApps
      else st0.allApplications ++ validOf newApps
    ({ allApplications := allApps,
       invalidApplications := inv0 ++ invalidOf newApps,
       currentOffset := allApps.length,
       hasMoreData := hasMore,
       totalApplications := total }, fixesOf newApps)

/-- `loadMoreApplications` of the source (lines 1021–1035): a no-op unless
`!isLoadingMore && hasMoreData`, otherwise `refreshData(false)`. -/
def loadMoreApplications (isLoadingMore : Bool) (st : StoreState)
    (outcome : FetchOutcome) : StoreState × List (String × String) :=
  if isLoadingMore || !st.hasMoreData then (st, [])
  else refreshData st false outcome

/-- A record of a scan result with its `_action` tag (`none` when the tag is
absent or not a string of interest). -/
structure TaggedApp where
  id : String
  action : Option String
deriving DecidableEq, Repr

/-- The two highlight sets `recentlyUpdatedIds` / `recentlyImportedIds`,
modelled as id lists queried by membership. -/
structure HighlightState where
  updated : List String
  imported : List String
deriving DecidableEq, Repr

/-- The marking pass of the scan-done branch (lines 1964–1975): both sets are
cleared first, then each record with `_action === "updated"` goes to the
updated set and each with `_action === "new"` to the imported set.  The prior
state is an argument only to record that it is discarded wholesale. -/
def markHighlights (_prev : HighlightState) (recs : List TaggedApp) :
    HighlightState :=
  recs.foldl
    (fun hs r =>
      match r.action with
      | some "updated" => { hs with updated := hs.updated ++ [r.id] }
      | some "new" => { hs with imported := hs.imported ++ [r.id] }
      | _ => hs)
    ⟨[], []⟩

/-- The timed expiry (lines 1980–1984): both sets cleared. -/
def clearHighlights : HighlightState := ⟨[], []⟩

/-- `recentlyImportedIds.has(app.id)` as used by the renderers. -/
def isNew (hs : HighlightState) (id : String) : Bool :=
  hs.imported.contains id

/-- `recentlyUpdatedIds.has(app.id)` as used by the renderers. -/
def isUpdated (hs : HighlightState) (id : String) : Bool :=
  hs.updated.contains id

/-- What one poll attempt of `pollScanStatus` observes: a decoded scan status,
or a thrown network / decode error (caught and ignored by the source). -/
inductive PollObs where
  | scanning
  | done
  | error
  | idle
  | netFail
deriving DecidableEq, Repr

/-- Poller state: the `attempts` counter and whether a next poll is
scheduled. -/
structure PollerState where
  attempts : Nat
  scheduled : Bool
deriving DecidableEq, Repr

/-- `maxAttempts` of the source. -/
def maxAttempts : Nat := 60

/-- One step of the `poll` closure of `pollScanStatus` (lines 1944–2002).  If
no poll is scheduled nothing happens.  An observed `scanning` increments the
counter and reschedules exactly when the incremented counter is still below
`maxAttempts`.  Every other observation — a terminal `done` / `error` /
`idle` status, or a caught network failure — ends the schedule: no branch of
the source reaches another `setTimeout(poll, 2000)`. -/
def pollStep (s : PollerState) (obs : PollObs) : PollerState :=
  if !s.scheduled then s
  else
    match obs with
    | .scanning =>
      { attempts := s.attempts + 1, scheduled := s.attempts + 1 < maxAttempts }
    | _ => { s with scheduled := false }

/-! ### Helper lemmas -/

theorem latestByDate_eq_none {l : List HistEntry}
    (h : latestByDate l = none) : l = [] := by
  cases l with
  | nil => rfl
  | cons a l => cases hm : latestByDate l <;> simp [latestByDate, hm] at h

theorem insertByDateDesc_nil_head (e : HistEntry) :
    (insertByDateDesc e []).head? = some e := rfl

theorem insertByDateDesc_cons_head (e x : HistEntry) (xs : List HistEntry) :
    (insertByDateDesc e (x :: xs)).head? =
      some (if x.date ≤ e.date then e else x) := by
  by_cases h : x.date ≤ e.date <;> simp [insertByDateDesc, h]

/-- The head of the stable date-descending sort is exactly the latest-by-date
entry (earliest-positioned on date ties). -/
theorem head_sortHistDesc (l : List HistEntry) :
    (sortHistDesc l).head? = latestByDate l := by
  induction l with
  | nil => rfl
  | cons a l ih =>
    rw [sortHistDesc]
    cases hs : sortHistDesc l with
    | nil =>
      have hn : latestByDate l = none := by rw [← ih, hs]; rfl
      rw [insertByDateDesc_nil_head]
      simp [latestByDate, hn]
    | cons x xs =>
      have hx : latestByDate l = some x := by rw [← ih, hs]; rfl
      rw [insertByDateDesc_cons_head]
      simp [latestByDate, hx]

/-- The latest-by-date entry has a maximal date in the history. -/
theorem latestByDate_max {l : List HistEntry} {e : HistEntry}
    (h : latestByDate l = some e) : ∀ x ∈ l, x.date ≤ e.date := by
  induction l generalizing e with
  | nil => simp [latestByDate] at h
  | cons a l ih =>
    cases hm : latestByDate l with
    | none =>
      have hl := latestByDate_eq_none hm
      subst hl
      simp [latestByDate] at h
      subst h
      intro x hx
      simp at hx
      subst hx
      exact le_refl _
    | some m =>
      rw [latestByDate, hm] at h
      have he : (if m.date ≤ a.date then a else m) = e := by
        injection h
      intro x hx
      have hme : m.date ≤ e.date := by
        by_cases hd : m.date ≤ a.date
        · rw [if_pos hd] at he; subst he; exact hd
        · rw [if_neg hd] at he; subst he; exact le_refl _
      rcases List.mem_cons.mp hx with hxa | hx'
      · rw [hxa]
        by_cases hd : m.date ≤ a.date
        · rw [if_pos hd] at he
          subst he
          exact le_refl _
        · rw [if_neg hd] at he
          subst he
          exact le_of_lt (lt_of_not_le hd)
      · exact le_trans (ih hm x hx') hme

/-- The latest-by-date entry belongs to the history. -/
theorem latestByDate_mem {l : List HistEntry} {e : HistEntry}
    (h : latestByDate l = some e) : e ∈ l := by
  induction l generalizing e with
  | nil => simp [latestByDate] at h
  | cons a l ih =>
    cases hm : latestByDate l with
    | none =>
      simp [latestByDate, hm] at h
      subst h
      exact List.mem_cons_self _ _
    | some m =>
      rw [latestByDate, hm] at h
      have he : (if m.date ≤ a.date then a else m) = e := by injection h
      by_cases hd : m.date ≤ a.date
      · rw [if_pos hd] at he; subst he; exact List.mem_cons_self _ _
      · rw [if_neg hd] at he; subst he
        exact List.mem_cons_of_mem _ (ih hm)

theorem latestByDate_cons_isSome (a : HistEntry) (l : List HistEntry) :
    ∃ m, latestByDate (a :: l) = some m := by
  cases hm : latestByDate l with
  | none => exact ⟨a, by simp [latestByDate, hm]⟩
  | some m => exact ⟨if m.date ≤ a.date then a else m, by simp [latestByDate, hm]⟩

theorem nonEmptyTrim_iff (o : Option String) :
    nonEmptyTrim o = true ↔ ∃ s, o = some s ∧ trimmed s ≠ "" := by
  cases o <;> simp [nonEmptyTrim]

theorem historyOk_iff (a : App) :
    historyOk a = true ↔
      (∀ l e, a.status_history = .entries l → latestByDate l = some e →
        a.status = some e.status) := by
  cases hf : a.status_history with
  | absent =>
    simp only [historyOk, histEntries, hf]
    constructor
    · intro _ l e hle
      cases hle
    · intro _
      trivial
  | jnull =>
    simp only [historyOk, histEntries, hf]
    constructor
    · intro _ l e hle
      cases hle
    · intro _
      trivial
  | notArray =>
    simp only [historyOk, histEntries, hf]
    constructor
    · intro _ l e hle
      cases hle
    · intro _
      trivial
  | entries l =>
    cases l with
    | nil =>
      simp only [historyOk, histEntries, hf]
      constructor
      · intro _ l e hle hlat
        injection hle with hl
        subst hl
        cases hlat
      · intro _
        trivial
    | cons e0 l0 =>
      obtain ⟨m, hm⟩ := latestByDate_cons_isSome e0 l0
      have hhead : (sortHistDesc (e0 :: l0)).head? = some m := by
        rw [head_sortHistDesc, hm]
      simp only [historyOk, histEntries, hf, hhead, decide_eq_true_eq]
      constructor
      · intro h l e hle hlat
        injection hle with hl
        subst hl
        rw [hm] at hlat
        injection hlat with hme
        subst hme
        exact h
      · intro h
        exact h (e0 :: l0) m rfl hm

/-! ### Claim theorems -/

/-- Claim C1: reconciliation is correct and idempotent.  For a fetched record
whose status history is a non-empty array with latest-by-date entry `e` (an
entry of maximal date), if the record's status already equals `e.status` the
reconciliation pass leaves the record unchanged and dispatches no update; if
it differs, the pass overwrites the local status with `e.status` and
dispatches exactly one update `{status: e.status}` for the record's id. -/
theorem reconcile_correct_and_idempotent (a : App) (l : List HistEntry)
    (e : HistEntry) (hl : histEntries a.status_history = some l)
    (he : latestByDate l = some e) :
    (∀ x ∈ l, x.date ≤ e.date) ∧
    (a.status = some e.status → reconcileApp a = (a, [])) ∧
    (a.status ≠ some e.status →
      reconcileApp a =
        ({ a with status := some e.status }, [(a.id, e.status)])) := by
  have hhead : (sortHistDesc l).head? = some e := by
    rw [head_sortHistDesc, he]
  refine ⟨latestByDate_max he, ?_, ?_⟩
  · intro hs
    simp [reconcileApp, hl, hhead, hs]
  · intro hs
    simp [reconcileApp, hl, hhead, hs]

/-- Sample record of the specification's reconciliation test: status
`"Applied"`, history `Applied@2024-01-01`, `Interviewed@2024-01-05` (dates as
timestamps). -/
def exApplied : App :=
  { id := "app-1", company := some "Acme", role := some "Engineer",
    status := some "Applied", platform := some "LinkedIn",
    applied_date := some "2024-01-01",
    status_history := .entries
      [⟨"Applied", 1704067200⟩, ⟨"Interviewed", 1704412800⟩] }

/-- Witness for C1 at the specification's own example: reconciliation ends
with status `"Interviewed"` and exactly one dispatched update
`{status: "Interviewed"}`. -/
theorem reconcile_correct_and_idempotent_witness :
    reconcileApp exApplied =
      ({ exApplied with status := some "Interviewed" },
        [("app-1", "Interviewed")]) :=
  (reconcile_correct_and_idempotent exApplied
      [⟨"Applied", 1704067200⟩, ⟨"Interviewed", 1704412800⟩]
      ⟨"Interviewed", 1704412800⟩ rfl rfl).2.2 (by decide)

/-- Claim C2: `validateApplication` returns `true` exactly when company, role,
status and platform are non-empty after trim, the applied date is present and
matches `YYYY-MM-DD`, the status is one of the fourteen allowed values, and —
whenever the status history is a non-empty array — the latest-by-date history
entry's status equals the record's status. -/
theorem validate_iff_spec (a : App) :
    validateApplication a = true ↔ validateSpec a := by
  constructor
  · intro h
    simp only [validateApplication, Bool.and_eq_true] at h
    obtain ⟨⟨⟨⟨⟨⟨⟨hc, hr⟩, hs⟩, hp⟩, hpd⟩, hdf⟩, hcont⟩, hh⟩ := h
    obtain ⟨s, hso, hst⟩ := (nonEmptyTrim_iff _).mp hs
    unfold validateSpec
    refine ⟨(nonEmptyTrim_iff _).mp hc, (nonEmptyTrim_iff _).mp hr,
      ⟨s, hso, hst, ?_⟩, (nonEmptyTrim_iff _).mp hp, ?_,
      (historyOk_iff a).mp hh⟩
    · rw [hso] at hcont
      simpa using hcont
    · cases hdo : a.applied_date with
      | none =>
        rw [hdo] at hpd
        simp [presentString] at hpd
      | some d =>
        rw [hdo] at hdf
        exact ⟨d, rfl, by simpa using hdf⟩
  · intro h
    unfold validateSpec at h
    obtain ⟨⟨c, hco, hct⟩, ⟨r, hro, hrt⟩, ⟨s, hso, hst, hsm⟩, ⟨p, hpo, hpt⟩,
      ⟨d, hdo, hdf⟩, hh⟩ := h
    simp only [validateApplication, Bool.and_eq_true]
    refine ⟨⟨⟨⟨⟨⟨⟨?_, ?_⟩, ?_⟩, ?_⟩, ?_⟩, ?_⟩, ?_⟩, ?_⟩
    · rw [hco]
      simp [nonEmptyTrim, hct]
    · rw [hro]
      simp [nonEmptyTrim, hrt]
    · rw [hso]
      simp [nonEmptyTrim, hst]
    · rw [hpo]
      simp [nonEmptyTrim, hpt]
    · rw [hdo]
      have hd0 : d ≠ "" := by
        intro h0
        rw [h0] at hdf
        exact absurd hdf (by decide)
      simp [presentString, hd0]
    · rw [hdo]
      simpa using hdf
    · rw [hso]
      simpa using hsm
    · exact (historyOk_iff a).mpr hh

/-- Claim C10: reconciliation and validation are total on malformed history.
When `status_history` is absent, `null`, not an array, or an empty array, the
reconciliation pass leaves the record unchanged and dispatches nothing, and
validation reduces to the required-field, date-format and status-enum
checks. -/
theorem malformed_history_skipped (a : App)
    (h : a.status_history = .absent ∨ a.status_history = .jnull ∨
      a.status_history = .notArray ∨ a.status_history = .entries []) :
    reconcileApp a = (a, []) ∧ validateApplication a = baseChecks a := by
  have hn : histEntries a.status_history = none := by
    rcases h with h | h | h | h <;> rw [h] <;> rfl
  constructor
  · simp [reconcileApp, hn]
  · simp [validateApplication, baseChecks, historyOk, hn]

/-- Sample record whose raw `status_history` field is not an array. -/
def exNoHistory : App :=
  { id := "app-2", company := some "Beta", role := some "Analyst",
    status := some "Viewed", platform := some "Indeed",
    applied_date := some "2024-02-03", status_history := .notArray }

/-- Witness for C10 at a record with a non-array history field. -/
theorem malformed_history_skipped_witness :
    reconcileApp exNoHistory = (exNoHistory, []) ∧
      validateApplication exNoHistory = baseChecks exNoHistory :=
  malformed_history_skipped exNoHistory (Or.inr (Or.inr (Or.inl rfl)))

/-- Claim C8: highlight mutual exclusion and expiry.  Marking a batch holding
one record tagged `"new"` and one tagged `"updated"` (distinct ids) discards
any prior highlight state, makes `isNew` / `isUpdated` true exactly for the
matching id, puts no id in both sets, and after the timed clear both queries
are false for every id. -/
theorem highlight_exclusive_and_expires (prev : HighlightState)
    (id1 id2 : String) (h : id1 ≠ id2) :
    isNew (markHighlights prev [⟨id1, some "new"⟩, ⟨id2, some "updated"⟩])
        id1 = true ∧
    isUpdated (markHighlights prev [⟨id1, some "new"⟩, ⟨id2, some "updated"⟩])
        id1 = false ∧
    isNew (markHighlights prev [⟨id1, some "new"⟩, ⟨id2, some "updated"⟩])
        id2 = false ∧
    isUpdated (markHighlights prev [⟨id1, some "new"⟩, ⟨id2, some "updated"⟩])
        id2 = true ∧
    (∀ i, ¬(isNew (markHighlights prev
          [⟨id1, some "new"⟩, ⟨id2, some "updated"⟩]) i = true ∧
        isUpdated (markHighlights prev
          [⟨id1, some "new"⟩, ⟨id2, some "updated"⟩]) i = true)) ∧
    (∀ i, isNew clearHighlights i = false ∧
      isUpdated clearHighlights i = false) := by
  have hm : markHighlights prev [⟨id1, some "new"⟩, ⟨id2, some "updated"⟩] =
      ⟨[id2], [id1]⟩ := rfl
  rw [hm]
  refine ⟨?_, ?_, ?_, ?_, ?_, ?_⟩
  · simp [isNew]
  · simp [isUpdated]
    exact h
  · simp [isNew]
    exact Ne.symm h
  · simp [isUpdated]
  · intro i
    rintro ⟨hn, hu⟩
    simp [isNew] at hn
    simp [isUpdated] at hu
    exact h (hn.symm.trans hu)
  · intro i
    exact ⟨rfl, rfl⟩

/-- Witness for C8 at ids `"a"` / `"b"` with a non-empty prior state. -/
theorem highlight_exclusive_and_expires_witness :
    isNew (markHighlights ⟨["u0"], ["n0"]⟩
        [⟨"a", some "new"⟩, ⟨"b", some "updated"⟩]) "a" = true ∧
    isUpdated (markHighlights ⟨["u0"], ["n0"]⟩
        [⟨"a", some "new"⟩, ⟨"b", some "updated"⟩]) "a" = false ∧
    isNew (markHighlights ⟨["u0"], ["n0"]⟩
        [⟨"a", some "new"⟩, ⟨"b", some "updated"⟩]) "b" = false ∧
    isUpdated (markHighlights ⟨["u0"], ["n0"]⟩
        [⟨"a", some "new"⟩, ⟨"b", some "updated"⟩]) "b" = true ∧
    isNew clearHighlights "a" = false :=
  have h := highlight_exclusive_and_expires ⟨["u0"], ["n0"]⟩ "a" "b"
    (by decide)
  ⟨h.1, h.2.1, h.2.2.1, h.2.2.2.1, (h.2.2.2.2.2 "a").1⟩

/-- Claim C7 counterexample: a swallowed network failure stops the schedule
even though the attempt counter (0) is far below the cap — the claim's "after
a swallowed network failure the poller still performs its next scheduled
poll" is false on the code. -/
theorem poll_netfail_stops_cex :
    pollStep ⟨0, true⟩ .netFail = ⟨0, false⟩ ∧ 0 < maxAttempts := by
  constructor
  · rfl
  · decide

/-- Claim C7 as amended: a network failure during a scheduled poll is
swallowed but ends the schedule (no reschedule), leaving the counter
untouched; an observed `scanning` status increments the counter and
reschedules exactly when the incremented counter is still below the cap of
60; every non-`scanning` observation ends the schedule. -/
theorem poll_schedule_amended (s : PollerState) (h : s.scheduled = true) :
    pollStep s .netFail = { s with scheduled := false } ∧
    (pollStep s .scanning).attempts = s.attempts + 1 ∧
    ((pollStep s .scanning).scheduled = true ↔ s.attempts + 1 < maxAttempts) ∧
    (∀ obs, obs ≠ PollObs.scanning → (pollStep s obs).scheduled = false) := by
  refine ⟨?_, ?_, ?_, ?_⟩
  · simp [pollStep, h]
  · simp [pollStep, h]
  · simp [pollStep, h]
  · intro obs hobs
    cases obs with
    | scanning => exact absurd rfl hobs
    | done => simp [pollStep, h]
    | error => simp [pollStep, h]
    | idle => simp [pollStep, h]
    | netFail => simp [pollStep, h]

/-- Witness for the amended C7 at counter 58: the failure path stops the
schedule, the scanning path advances to 59 and stays scheduled. -/
theorem poll_schedule_amended_witness :
    pollStep ⟨58, true⟩ .netFail = ⟨58, false⟩ ∧
    (pollStep ⟨58, true⟩ .scanning).attempts = 59 ∧
    (pollStep ⟨58, true⟩ .scanning).scheduled = true :=
  have h := poll_schedule_amended ⟨58, true⟩ rfl
  ⟨h.1, h.2.1, h.2.2.1.mpr (by decide)⟩

/-- Claim C9: a falsy `total` (absent, `null`, or the number 0) makes the
stored total fall back to the fetched list's length, while a non-zero server
total is stored as-is; `has_more` alone is distinguished between absent and
present-but-false, so a successful page always stores `hasMoreData =
has_more` when the field is present and `false` when absent.  In particular a
truthful `total: 0` with a non-empty page cannot store a total of 0. -/
theorem total_falsy_fallback (st : StoreState) (reset : Bool)
    (d : PageResponse) :
    ((d.total = none ∨ d.total = some 0) →
      ((refreshData st reset (.ok d)).1).totalApplications =
        d.applications.length) ∧
    (∀ n, d.total = some (n + 1) →
      ((refreshData st reset (.ok d)).1).totalApplications = n + 1) ∧
    ((refreshData st reset (.ok d)).1).hasMoreData = d.has_more.getD false ∧
    (d.total = some 0 → d.applications ≠ [] →
      ((refreshData st reset (.ok d)).1).totalApplications ≠ 0) := by
  refine ⟨?_, ?_, ?_, ?_⟩
  · rintro (h | h) <;> simp [refreshData, h]
  · intro n h
    simp [refreshData, h]
  · simp [refreshData]
  · intro h hne
    simp [refreshData, h]
    exact hne

/-- Witness for C9: a server reporting `total: 0` next to a one-record page
stores a total of 1, not 0. -/
theorem total_falsy_fallback_witness :
    ((refreshData ⟨[], [], 0, true, 0⟩ true
        (.ok ⟨[exApplied], some true, some 0⟩)).1).totalApplications = 1 ∧
    ((refreshData ⟨[], [], 0, true, 0⟩ true
        (.ok ⟨[exApplied], some true, some 0⟩)).1).totalApplications ≠ 0 :=
  have h := total_falsy_fallback ⟨[], [], 0, true, 0⟩ true
    ⟨[exApplied], some true, some 0⟩
  ⟨h.1 (Or.inr rfl), h.2.2.2 rfl (by simp)⟩

/-- Claim C3 counterexample: a `loadPage(reset=true)` call that ends in a
network failure does *not* leave the store unchanged — the source clears the
record list, offset and `hasMoreData` before the fetch, so the prior state
(one record, offset 1, `hasMoreData = false`) is clobbered. -/
theorem fail_reset_clobbers_cex :
    ((refreshData ⟨[exApplied], [], 1, false, 1⟩ true .fail).1).allApplications
        = [] ∧
    (refreshData ⟨[exApplied], [], 1, false, 1⟩ true .fail).1 ≠
      ⟨[exApplied], [], 1, false, 1⟩ := by
  constructor
  · rfl
  · decide

/-- Claim C3 as amended: an append (`reset=false`) call that ends in a
network or decode failure leaves the whole store state unchanged and
dispatches nothing; a failing `reset=true` call leaves the store with the
record list cleared, offset 0 and `hasMoreData = true` (the reset is applied
before the fetch), the invalid list and total untouched; in both cases the
failure is swallowed inside the call rather than rethrown to the caller. -/
theorem fail_state_effects (st : StoreState) :
    refreshData st false .fail = (st, []) ∧
    refreshData st true .fail =
      ({ st with
          currentOffset := 0
          hasMoreData := true
          allApplications := [] }, []) := by
  exact ⟨rfl, rfl⟩

/-- Sample record failing validation: `company` is missing. -/
def exNoCompany : App :=
  { id := "app-3", company := none, role := some "QA",
    status := some "Applied", platform := some "Indeed",
    applied_date := some "2024-03-04", status_history := .absent }

/-- Claim C5 counterexample: an append (`reset=false`) call whose page holds
an invalid record (missing company) grows the invalid list from `[]` to one
entry — the invalid list is *not* left as it was. -/
theorem append_mutates_invalid_cex :
    ((refreshData ⟨[], [], 0, true, 0⟩ false
        (.ok ⟨[exNoCompany], some false, none⟩)).1).invalidApplications =
      [exNoCompany] ∧
    ([exNoCompany] : List App) ≠ [] := by
  constructor
  · rfl
  · decide

/-- Claim C5 as amended: the invalid list is *cleared* only on reset, but
extended by the page's invalid records on every successful call: an append
call appends them to the prior invalid list, a reset call replaces the list
with them — so a reset whose page has zero invalid records yields an empty
invalid list regardless of prior state. -/
theorem invalid_list_mutation (st : StoreState) (d : PageResponse) :
    ((refreshData st false (.ok d)).1).invalidApplications =
      st.invalidApplications ++ invalidOf d.applications ∧
    ((refreshData st true (.ok d)).1).invalidApplications =
      invalidOf d.applications ∧
    (invalidOf d.applications = [] →
      ((refreshData st true (.ok d)).1).invalidApplications = []) := by
  refine ⟨rfl, rfl, ?_⟩
  intro h
  show invalidOf d.applications = []
  exact h

/-- Witness for the amended C5: a reset over a page whose one record is valid
(after reconciliation) empties a previously non-empty invalid list. -/
theorem invalid_list_mutation_witness :
    ((refreshData ⟨[], [exNoCompany], 0, true, 0⟩ true
        (.ok ⟨[exApplied], some false, none⟩)).1).invalidApplications = [] :=
  (invalid_list_mutation ⟨[], [exNoCompany], 0, true, 0⟩
    ⟨[exApplied], some false, none⟩).2.2 (by decide)

/-- Claim C6: after every successful `loadPage` completion the offset equals
the number of valid records held; an append whose page carries at least one
record that passes validation (after reconciliation) strictly grows the
valid-record count; and once `hasMoreData` is false a load-more call is a
no-op, so the offset stops advancing. -/
theorem pagination_offset_invariant (st : StoreState) (reset : Bool)
    (d : PageResponse) (outcome : FetchOutcome) (b : Bool) :
    ((refreshData st reset (.ok d)).1).currentOffset =
      ((refreshData st reset (.ok d)).1).allApplications.length ∧
    ((∃ a ∈ d.applications, validateApplication (reconcileApp a).1 = true) →
      st.allApplications.length <
        ((refreshData st false (.ok d)).1).allApplications.length) ∧
    (st.hasMoreData = false →
      loadMoreApplications b st outcome = (st, [])) := by
  refine ⟨?_, ?_, ?_⟩
  · cases reset <;> rfl
  · rintro ⟨a, ha, hv⟩
    have hmem : (reconcileApp a).1 ∈ validOf d.applications := by
      apply List.mem_filter.mpr
      refine ⟨?_, by simpa using hv⟩
      exact List.mem_map_of_mem _ ha
    have hpos : 0 < (validOf d.applications).length :=
      List.length_pos.mpr (List.ne_nil_of_mem hmem)
    have hall : ((refreshData st false (.ok d)).1).allApplications =
        st.allApplications ++ validOf d.applications := rfl
    rw [hall, List.length_append]
    omega
  · intro h
    simp [loadMoreApplications, h]

/-- Witness for C6: loading a one-valid-record page from the empty store
grows the count, and a load-more on an exhausted store is a no-op. -/
theorem pagination_offset_invariant_witness :
    (0 : Nat) <
      ((refreshData ⟨[], [], 0, true, 0⟩ false
        (.ok ⟨[exApplied], some true, none⟩)).1).allApplications.length ∧
    loadMoreApplications false ⟨[exApplied], [], 1, false, 1⟩ .fail =
      (⟨[exApplied], [], 1, false, 1⟩, []) :=
  ⟨(pagination_offset_invariant ⟨[], [], 0, true, 0⟩ false
      ⟨[exApplied], some true, none⟩ .fail false).2.1
      ⟨exApplied, by simp, by decide⟩,
   (pagination_offset_invariant ⟨[exApplied], [], 1, false, 1⟩ false
      ⟨[], none, none⟩ .fail false).2.2 rfl⟩

/-- Valid sample record with no status history. -/
def exValid : App :=
  { id := "ok-1", company := some "Acme", role := some "Engineer",
    status := some "Applied", platform := some "LinkedIn",
    applied_date := some "2024-01-01", status_history := .absent }

/-- Sample record failing validation: `role` is missing. -/
def exNoRole : App :=
  { id := "bad-1", company := some "Gamma", role := none,
    status := some "Applied", platform := some "Indeed",
    applied_date := some "2024-01-02", status_history := .absent }

/-- The fetched page of the specification's end-to-end test: 48 valid
records, one record missing `role`, and one record whose status disagrees
with its latest history entry. -/
def page50apps : List App :=
  List.replicate 48 exValid ++ [exNoRole, exApplied]

/-- Claim C4 counterexample: loading the 48-valid + 2-defective page with
`reset=true` leaves an invalid list of length 1 — not 2 — and 49 valid
records, because the status/history-mismatch record is healed locally by the
reconciliation pass no matter how its auto-fix request fares. -/
theorem end_to_end_cex :
    ((refreshData ⟨[], [], 0, true, 0⟩ true
        (.ok ⟨page50apps, some true, some 200⟩)).1).invalidApplications.length
        = 1 ∧
    ¬(((refreshData ⟨[], [], 0, true, 0⟩ true
        (.ok ⟨page50apps, some true, some 200⟩)).1).invalidApplications.length
        = 2) ∧
    ((refreshData ⟨[], [], 0, true, 0⟩ true
        (.ok ⟨page50apps, some true, some 200⟩)).1).allApplications.length
        = 49 := by
  decide

/-- Claim C4 as amended: the reconciliation pass overwrites the local status
regardless of the auto-fix request's outcome, so the mismatch record counts
as valid; the reset load of the 50-record page leaves 49 valid records, an
invalid list holding exactly the record missing `role`, offset 49, and
`hasMoreData` equal to the server-reported flag. -/
theorem end_to_end_amended (st : StoreState) (hm : Bool) :
    ((refreshData st true
        (.ok ⟨page50apps, some hm, some 200⟩)).1).allApplications.length
        = 49 ∧
    ((refreshData st true
        (.ok ⟨page50apps, some hm, some 200⟩)).1).invalidApplications
        = [exNoRole] ∧
    ((refreshData st true
        (.ok ⟨page50apps, some hm, some 200⟩)).1).currentOffset = 49 ∧
    ((refreshData st true
        (.ok ⟨page50apps, some hm, some 200⟩)).1).hasMoreData = hm := by
  have hv : (validOf page50apps).length = 49 := by decide
  have hi : invalidOf page50apps = [exNoRole] := by decide
  exact ⟨hv, hi, hv, rfl⟩

end JobPulse
